import Mathlib

/-!
Verification of the regtech-data-validator rule-evaluation engine and
result-aggregation pipeline.

The definitions below are a shallow embedding of the Python sources
`check_functions.py` and `data_formatters.py`.  Columnar (polars)
expressions are embedded as their element-wise meaning over row-aligned
lists; Python strings are Lean `String`s; Python `float` values are
modelled as exact rationals; fallible code (code that can raise) returns
`Option`.
-/

namespace RegtechValidator

/-! ## String and parsing helpers -/

/-- Numeric value of a list of decimal digit characters (most significant
first), as used to read fixed-width date fields. -/
def digitsVal (cs : List Char) : Nat :=
  cs.foldl (fun acc c => acc * 10 + (c.toNat - 48)) 0

/-- Python `str.strip()` on the character list (whitespace per
`Char.isWhitespace`). -/
def stripChars (cs : List Char) : List Char :=
  ((cs.dropWhile Char.isWhitespace).reverse.dropWhile Char.isWhitespace).reverse

/-- Python `str.strip()` / polars `str.strip_chars()`. -/
def pyStrip (s : String) : String := String.mk (stripChars s.data)

/-- Python `str.split(sep)` / polars `str.split(sep)`: the separators the
catalog passes are single characters (the default `;`). -/
def pySplit (s : String) (sep : Char) : List String :=
  (s.data.splitOn sep).map String.mk

/-- Modelled from the code's use of Python `int(str)`: optional sign
followed by a non-empty run of decimal digits, surrounding whitespace
stripped.  (Underscore digit separators are not modelled.) -/
def pyIntParses (s : String) : Bool :=
  let t := stripChars s.data
  let rest := match t with
    | '+' :: r => r
    | '-' :: r => r
    | r => r
  !rest.isEmpty && rest.all Char.isDigit

/-- Modelled from the code's use of Python `float(str)`: optional sign,
then decimal digits with an optional fractional part, surrounding
whitespace stripped; the IEEE value is modelled as an exact rational.
(Exponent notation and the inf/nan forms are not modelled.) -/
def pyFloatValue (s : String) : Option ℚ :=
  let t := stripChars s.data
  let signAndRest : ℚ × List Char := match t with
    | '+' :: r => (1, r)
    | '-' :: r => (-1, r)
    | r => (1, r)
  let sign := signAndRest.1
  let rest := signAndRest.2
  let intPart := rest.takeWhile Char.isDigit
  let after := rest.dropWhile Char.isDigit
  match after with
  | [] =>
    if intPart.isEmpty then none
    else some (sign * (digitsVal intPart : ℚ))
  | '.' :: frac =>
    if frac.all Char.isDigit && (!intPart.isEmpty || !frac.isEmpty) then
      some (sign * ((digitsVal intPart : ℚ) + (digitsVal frac : ℚ) / (10 : ℚ) ^ frac.length))
    else none
  | _ => none

/-! ## Date parsing

Modelled from the code's `strptime`/`str.strptime` calls with format
`%Y%m%d`, restricted to the 8-character digit strings the submission
format prescribes: four digits of year, two of month, two of day, with
the day checked against the calendar (leap years included). -/

def isLeapYear (y : Nat) : Bool :=
  (y % 4 == 0 && y % 100 != 0) || y % 400 == 0

def daysInMonth (y m : Nat) : Nat :=
  if m = 2 then (if isLeapYear y then 29 else 28)
  else if m = 4 ∨ m = 6 ∨ m = 9 ∨ m = 11 then 30
  else 31

def parseYMD8 (s : String) : Option (Nat × Nat × Nat) :=
  let cs := s.data
  if cs.length = 8 ∧ cs.all Char.isDigit then
    let y := digitsVal (cs.take 4)
    let m := digitsVal ((cs.drop 4).take 2)
    let d := digitsVal (cs.drop 6)
    if 1 ≤ m ∧ m ≤ 12 ∧ 1 ≤ d ∧ d ≤ daysInMonth y m then some (y, m, d) else none
  else none

/-- Calendar order on parsed dates, via the rank `y*10000 + m*100 + d`
(equivalent to lexicographic order since months and days are below 100). -/
def dateRank (d : Nat × Nat × Nat) : Nat :=
  d.1 * 10000 + d.2.1 * 100 + d.2.2

/-- Day number of a civil date (days-from-civil algorithm), used for the
day-count delta comparison of `is_date_before_in_days`. -/
def daysFromCivil (yy mm dd : Nat) : Int :=
  let y : Int := if mm ≤ 2 then (yy : Int) - 1 else (yy : Int)
  let m : Int := if mm ≤ 2 then (mm : Int) + 9 else (mm : Int) - 3
  let doy : Int := (153 * m + 2) / 5 + (dd : Int) - 1
  365 * y + y / 4 - y / 100 + y / 400 + doy

/-! ## Value-level evaluators (check_functions.py)

Element-wise evaluators are embedded per cell; the columnar (polars)
evaluators are embedded as their element-wise meaning over row-aligned
lists of cells. -/

/-- Embeds `_check_blank_`: if the value is blank, the result is
`accept_blank`; otherwise it is the non-blank check result. -/
def _check_blank_ (value : String) (check_result : Bool) (accept_blank : Bool) : Bool :=
  if pyStrip value = "" then accept_blank else check_result

/-- Embeds `comparison_helper`.  The Python body applies `float` to the
value and the limit with no `try/except`, so a non-blank value that does
not parse raises `ValueError`; the escaping exception is modelled as
`none`. -/
def comparison_helper (value limit : String) (accept_blank : Bool)
    (operand : ℚ → ℚ → Bool) : Option Bool :=
  if pyStrip value = "" ∧ ¬ accept_blank then some false
  else if pyStrip value = "" ∧ accept_blank then some true
  else
    match pyFloatValue value, pyFloatValue limit with
    | some v, some l => some (operand v l)
    | _, _ => none

/-- Embeds `is_greater_than_or_equal_to`. -/
def is_greater_than_or_equal_to (value min_value : String) (accept_blank : Bool) : Option Bool :=
  comparison_helper value min_value accept_blank (fun a b => decide (a ≥ b))

/-- Embeds `is_greater_than`. -/
def is_greater_than (value min_value : String) (accept_blank : Bool) : Option Bool :=
  comparison_helper value min_value accept_blank (fun a b => decide (a > b))

/-- Embeds `is_less_than`. -/
def is_less_than (value max_value : String) (accept_blank : Bool) : Option Bool :=
  comparison_helper value max_value accept_blank (fun a b => decide (a < b))

/-- Embeds `is_number`: the parse attempt is wrapped in
`try/except ValueError`, so a failed parse becomes a failing boolean. -/
def is_number (ct_value : String) (accept_blank : Bool) (is_whole : Bool) : Bool :=
  let value_check := if is_whole then pyIntParses ct_value else (pyFloatValue ct_value).isSome
  _check_blank_ ct_value value_check accept_blank

/-- Embeds `has_correct_length`. -/
def has_correct_length (ct_value : String) (accepted_length : Nat) (accept_blank : Bool) : Bool :=
  _check_blank_ ct_value (ct_value.length == accepted_length) accept_blank

/-- Embeds `is_valid_code` (`codes` stands for the dict's key list). -/
def is_valid_code (ct_value : String) (accept_blank : Bool) (codes : List String) : Bool :=
  _check_blank_ ct_value (decide (ct_value ∈ codes)) accept_blank

/-- Embeds `is_valid_enum` (elementwise meaning of the polars
expression): a blank cell passes when `accept_blank` is set, otherwise
the separator-split value list must have empty set-difference with the
accepted values. -/
def is_valid_enum (ct_value : String) (accepted_values : List String)
    (accept_blank : Bool) (separator : Char) : Bool :=
  (pyStrip ct_value == "" && accept_blank)
    || ((pySplit ct_value separator).filter (fun v => v ∉ accepted_values)).isEmpty

/-- Embeds `has_valid_format` (elementwise meaning of the polars
expression).  The external regex engine behind `str.contains` is
abstracted as the parameter `regexMatch`. -/
def has_valid_format (regexMatch : String → String → Bool)
    (value : String) (regex : String) (accept_blank : Bool) : Bool :=
  (pyStrip value == "" && accept_blank) || regexMatch regex value

/-- Embeds `has_valid_value_count` (Python int bounds are modelled as
`Int`, the absent `max_length` as `none`). -/
def has_valid_value_count (ct_value : String) (min_length : Int)
    (max_length : Option Int) (separator : Char) : Bool :=
  let values_count : Int := ((pySplit ct_value separator).length : Int)
  match max_length with
  | none => decide (min_length ≤ values_count)
  | some m => decide (min_length ≤ values_count) && decide (values_count ≤ m)

/-- Embeds `is_unique_in_field`. -/
def is_unique_in_field (ct_value : String) (separator : Char) : Bool :=
  ((pySplit ct_value separator).dedup).length == (pySplit ct_value separator).length

/-- Embeds `meets_multi_value_field_restriction`. -/
def meets_multi_value_field_restriction (ct_value : String)
    (single_values : List String) (separator : Char) : Bool :=
  let vals := pySplit ct_value separator
  ((vals.filter (fun v => v ∈ single_values)).isEmpty)
    || (vals.dedup.length == 1 && vals.all (fun v => v ∈ single_values))

/-- Embeds `has_no_conditional_field_conflict` (elementwise meaning of
the polars expression): `check_col` is "the related column's split value
list has empty intersection with the trigger set", `val_col` is "the
target cell is blank after stripping"; the row passes when their XOR is
false. -/
def has_no_conditional_field_conflict (target related : String)
    (condition_values : List String) (separator : Char) : Bool :=
  let check_col := ((pySplit related separator).inter condition_values).length == 0
  let val_col := pyStrip target == ""
  !(xor check_col val_col)

/-! ## Enum-pair evaluator -/

/-- One condition of `has_valid_enum_pair`, as the dicts in the
`conditions` list. -/
structure EnumPairCondition where
  condition_values : List String
  is_equal_condition : Bool
  target_value : String
  should_equal_target : Bool
deriving DecidableEq

/-- The membership test of `check_condition` on the related column's
split value list: intersection non-empty when `is_equal_condition`,
intersection empty otherwise. -/
def condition_matches (c : EnumPairCondition) (check_values : List String) : Bool :=
  if c.is_equal_condition then
    decide ((check_values.inter c.condition_values).length > 0)
  else
    (check_values.inter c.condition_values).length == 0

/-- The target relation required by a condition: stripped target equal
(or not equal) to the condition's target literal. -/
def target_relation_holds (c : EnumPairCondition) (target_stripped : String) : Bool :=
  if c.should_equal_target then target_stripped == c.target_value
  else target_stripped != c.target_value

/-- Embeds `check_condition` (elementwise meaning of the
`pl.when(check).then(relation).otherwise(True)` expression). -/
def check_condition (c : EnumPairCondition) (check_values : List String)
    (target_stripped : String) : Bool :=
  if condition_matches c check_values then target_relation_holds c target_stripped
  else true

/-- Embeds `has_valid_enum_pair` (elementwise meaning): the per-condition
results are folded onto `pl.lit(True)` with `&`. -/
def has_valid_enum_pair (conditions : List EnumPairCondition)
    (related target : String) (separator : Char) : Bool :=
  let check_values := pySplit related separator
  let target_stripped := pyStrip target
  conditions.foldl (fun acc c => acc && check_condition c check_values target_stripped) true

/-- The claim's first-match-wins reading of the enum-pair evaluator,
stated for comparison with `has_valid_enum_pair`: the first condition in
declaration order whose membership test matches determines the required
target relation; if no condition matches, the row passes. -/
def has_valid_enum_pair_first_match (conditions : List EnumPairCondition)
    (related target : String) (separator : Char) : Bool :=
  let check_values := pySplit related separator
  let target_stripped := pyStrip target
  (conditions.find? (fun c => condition_matches c check_values)).elim true
    (fun c => target_relation_holds c target_stripped)

/-! ## Register-wide uniqueness -/

/-- Embeds `is_unique_column` (the live polars implementation): the
column's `is_unique` mask marks each row whose value occurs exactly once
in the column.  The `count_limit` parameter is accepted but not consulted
by the implementation. -/
def is_unique_column (col : List String) (count_limit : Nat) : List Bool :=
  col.map (fun v => col.count v == 1)

/-- First-occurrence-order deduplication (order-maintaining `unique`). -/
def uniqueFirstAux {α : Type} [DecidableEq α] (seen : List α) : List α → List α
  | [] => []
  | x :: xs => if x ∈ seen then uniqueFirstAux seen xs else x :: uniqueFirstAux (x :: seen) xs

def uniqueFirst {α : Type} [DecidableEq α] (l : List α) : List α :=
  uniqueFirstAux [] l

/-- The dataset's distinct-value count for a column, as the claim about
`is_unique_column` measures it. -/
def distinct_count (col : List String) : Nat := (uniqueFirst col).length

/-! ## Date evaluators -/

/-- Embeds `is_date_in_range`: the three `strptime` calls are wrapped in
`try/except ValueError`, so any unparseable date yields a failing
boolean. -/
def is_date_in_range (date_value start_date_value end_date_value : String) : Bool :=
  match parseYMD8 date_value, parseYMD8 start_date_value, parseYMD8 end_date_value with
  | some d, some s, some e => decide (dateRank s ≤ dateRank d) && decide (dateRank d ≤ dateRank e)
  | _, _, _ => false

/-- Embeds `is_date_after` over the two row-aligned columns
(`key_col` is the validated column, `groupby_col` the related one).
The polars `str.strptime(pl.Date, "%Y%m%d")` call is strict — it raises
on any unparseable cell — so a parse failure is modelled as `none`. -/
def is_date_after (key_col groupby_col : List String) : Option (List Bool) :=
  match groupby_col.mapM parseYMD8, key_col.mapM parseYMD8 with
  | some check_dates, some v_dates =>
    some (List.zipWith (fun c v => decide (dateRank c ≤ dateRank v)) check_dates v_dates)
  | _, _ => none

/-- Embeds `is_date_before_in_days` over the two row-aligned columns;
the strict `str.strptime` is modelled as for `is_date_after`, and the
day-count difference via `daysFromCivil`. -/
def is_date_before_in_days (key_col groupby_col : List String)
    (days_value : Int) : Option (List Bool) :=
  match key_col.mapM parseYMD8, groupby_col.mapM parseYMD8 with
  | some v_dates, some check_dates =>
    some (List.zipWith
      (fun v c =>
        decide (daysFromCivil v.1 v.2.1 v.2.2 - daysFromCivil c.1 c.2.1 c.2.2 < days_value))
      v_dates check_dates)
  | _, _ => none

/-! ## Substring/slice evaluator -/

/-- Python slice-index normalisation for a string of length `n`. -/
def pySliceIdx (n : Nat) (i : Int) : Nat :=
  if i < 0 then ((n : Int) + i).toNat else min i.toNat n

/-- Python `value[a:b]`. -/
def pySlice (s : String) (a b : Int) : String :=
  let n := s.length
  let a0 := pySliceIdx n a
  let b0 := pySliceIdx n b
  String.mk ((s.data.drop a0).take (b0 - a0))

/-- Embeds `string_contains`: the (possibly sliced) value is compared to
`containing_value` only when the latter is provided; otherwise the check
returns `True`. -/
def string_contains (value : String) (containing_value : Option String)
    (start_idx end_idx : Option Int) : Bool :=
  match containing_value with
  | some cv =>
    match start_idx, end_idx with
    | some a, some b => pySlice value a b == cv
    | some a, none => pySlice value a (value.length : Int) == cv
    | none, some b => pySlice value 0 b == cv
    | none, none => value == cv
  | none => true

/-! ## Budget allocator (data_formatters.py)

`calculate_group_chunk_sizes` receives the per-validation distinct-record
counts as an `OrderedDict` sorted by validation_id; it is embedded over
an association list sorted by key.  The real-number ratio/`math.ceil`
computation is modelled as exact ceiling division. -/

/-- Ceiling division: the exact-arithmetic meaning of
`math.ceil(max_records * (count / total_count))`. -/
def ceil_div (a b : Nat) : Nat := (a + b - 1) / b

/-- Python's lexicographic code-point order on strings, as `sorted` uses
on the validation_id keys. -/
def charListLt : List Char → List Char → Bool
  | [], [] => false
  | [], _ :: _ => true
  | _ :: _, [] => false
  | a :: as, b :: bs =>
    if a.toNat < b.toNat then true
    else if b.toNat < a.toNat then false
    else charListLt as bs

def strLt (a b : String) : Bool := charListLt a.data b.data

/-- Insertion into a key-sorted association list. -/
def insertByKey (p : String × Nat) : List (String × Nat) → List (String × Nat)
  | [] => [p]
  | q :: qs => if strLt p.1 q.1 then p :: q :: qs else q :: insertByKey p qs

/-- `OrderedDict(sorted(error_counts.items()))`: groups sorted by
ascending validation_id. -/
def sortByKey : List (String × Nat) → List (String × Nat)
  | [] => []
  | p :: ps => insertByKey p (sortByKey ps)

/-- The decrement condition of the adjustment loop body at index `i`:
the share exceeds 1, or equals 1 while the total no longer exceeds the
number of groups. -/
def stepCond (cs : List Nat) (i : Nat) : Prop :=
  cs.getD i 0 > 1 ∨ (cs.getD i 0 = 1 ∧ cs.sum ≤ cs.length)

instance (cs : List Nat) (i : Nat) : Decidable (stepCond cs i) := by
  unfold stepCond; infer_instance

/-- The decrements of one `for`-body iteration of the adjustment loop at
index `i` (`new_counts[i] -= 1` under the two guards). -/
def adjustStep (cs : List Nat) (i : Nat) : List Nat :=
  if cs.getD i 0 > 1 then cs.set i (cs.getD i 0 - 1)
  else if cs.getD i 0 = 1 ∧ cs.sum ≤ cs.length then cs.set i (cs.getD i 0 - 1)
  else cs

/-- `for i in reversed(range(len(new_counts)))` with the
`if sum(new_counts) == max_records: break` test after each body. -/
def adjustPassAux (maxR : Nat) : Nat → List Nat → List Nat
  | 0, cs => cs
  | i + 1, cs =>
    if (adjustStep cs i).sum = maxR then adjustStep cs i
    else adjustPassAux maxR i (adjustStep cs i)

/-- One full pass of the `for` loop over all indices in reverse order. -/
def adjustPass (maxR : Nat) (cs : List Nat) : List Nat :=
  adjustPassAux maxR cs.length cs

theorem sum_set_add (l : List Nat) (i : Nat) (a : Nat) (h : i < l.length) :
    (l.set i a).sum + l.getD i 0 = l.sum + a := by
  induction l generalizing i with
  | nil => simp at h
  | cons x xs ih =>
    cases i with
    | zero => simp [List.set]; omega
    | succ i =>
      simp only [List.set, List.sum_cons, List.getD_cons_succ]
      have := ih i (by simpa using h)
      omega

theorem getD_pos_lt_length (cs : List Nat) (i : Nat) (h : 0 < cs.getD i 0) :
    i < cs.length := by
  by_contra hi
  rw [List.getD_eq_default] at h
  · omega
  · omega

theorem adjustStep_length (cs : List Nat) (i : Nat) :
    (adjustStep cs i).length = cs.length := by
  unfold adjustStep
  split
  · simp
  · split
    · simp
    · rfl

theorem adjustStep_sum_of_cond (cs : List Nat) (i : Nat) (h : stepCond cs i) :
    (adjustStep cs i).sum + 1 = cs.sum := by
  have hlt : i < cs.length := by
    apply getD_pos_lt_length
    rcases h with h | ⟨h, _⟩ <;> omega
  have hset := sum_set_add cs i (cs.getD i 0 - 1) hlt
  rcases h with h | ⟨h1, h2⟩
  · unfold adjustStep
    rw [if_pos h]
    omega
  · unfold adjustStep
    rw [if_neg (by omega), if_pos ⟨h1, h2⟩]
    omega

theorem adjustStep_eq_of_not_cond (cs : List Nat) (i : Nat) (h : ¬ stepCond cs i) :
    adjustStep cs i = cs := by
  unfold stepCond at h
  push_neg at h
  unfold adjustStep
  rw [if_neg (by omega), if_neg]
  intro hc
  have := h.2 hc.1
  omega

theorem adjustStep_cases (cs : List Nat) (i : Nat) :
    adjustStep cs i = cs ∨ (adjustStep cs i).sum + 1 = cs.sum := by
  by_cases h : stepCond cs i
  · exact Or.inr (adjustStep_sum_of_cond cs i h)
  · exact Or.inl (adjustStep_eq_of_not_cond cs i h)

theorem adjustStep_sum_le (cs : List Nat) (i : Nat) :
    (adjustStep cs i).sum ≤ cs.sum := by
  rcases adjustStep_cases cs i with h | h
  · rw [h]
  · omega

theorem adjustPassAux_length (maxR : Nat) (i : Nat) (cs : List Nat) :
    (adjustPassAux maxR i cs).length = cs.length := by
  induction i generalizing cs with
  | zero => rfl
  | succ i ih =>
    unfold adjustPassAux
    split
    · exact adjustStep_length cs i
    · rw [ih (adjustStep cs i), adjustStep_length]

theorem adjustPassAux_sum_le (maxR : Nat) (i : Nat) (cs : List Nat) :
    (adjustPassAux maxR i cs).sum ≤ cs.sum := by
  induction i generalizing cs with
  | zero => exact Nat.le_refl _
  | succ i ih =>
    unfold adjustPassAux
    split
    · exact adjustStep_sum_le cs i
    · exact Nat.le_trans (ih (adjustStep cs i)) (adjustStep_sum_le cs i)

theorem adjustPassAux_sum_ge (maxR : Nat) (i : Nat) (cs : List Nat) (h : maxR < cs.sum) :
    maxR ≤ (adjustPassAux maxR i cs).sum := by
  induction i generalizing cs with
  | zero =>
    simp only [adjustPassAux]
    omega
  | succ i ih =>
    unfold adjustPassAux
    split
    · omega
    · rename_i hne
      apply ih
      rcases adjustStep_cases cs i with hc | hc
      · rw [hc]; exact h
      · omega

theorem adjustPassAux_sum_lt (maxR : Nat) (i : Nat) (cs : List Nat) (hgt : maxR < cs.sum)
    (hw : ∃ j, j < i ∧ stepCond cs j) :
    (adjustPassAux maxR i cs).sum < cs.sum := by
  induction i generalizing cs with
  | zero =>
    obtain ⟨j, hj, _⟩ := hw
    omega
  | succ i ih =>
    unfold adjustPassAux
    by_cases hc : stepCond cs i
    · have hdec := adjustStep_sum_of_cond cs i hc
      split
      · omega
      · have := adjustPassAux_sum_le maxR i (adjustStep cs i)
        omega
    · have heq := adjustStep_eq_of_not_cond cs i hc
      rw [heq]
      split
      · rename_i hsum
        omega
      · apply ih cs hgt
        obtain ⟨j, hj, hcj⟩ := hw
        refine ⟨j, ?_, hcj⟩
        rcases Nat.lt_succ_iff_lt_or_eq.mp hj with h | h
        · exact h
        · subst h
          exact absurd hcj hc

theorem sum_le_length_of_all_le_one (cs : List Nat) (h : ∀ x ∈ cs, x ≤ 1) :
    cs.sum ≤ cs.length := by
  induction cs with
  | nil => simp
  | cons x xs ih =>
    simp only [List.sum_cons, List.length_cons]
    have hx := h x (by simp)
    have := ih (fun y hy => h y (by simp [hy]))
    omega

theorem exists_stepCond (maxR : Nat) (cs : List Nat) (h : maxR < cs.sum) :
    ∃ j, j < cs.length ∧ stepCond cs j := by
  by_cases hbig : ∃ j, j < cs.length ∧ cs.getD j 0 > 1
  · obtain ⟨j, hj, hv⟩ := hbig
    exact ⟨j, hj, Or.inl hv⟩
  · push_neg at hbig
    have hall : ∀ x ∈ cs, x ≤ 1 := by
      intro x hx
      obtain ⟨j, hj, hxj⟩ := List.mem_iff_getElem.mp hx
      have hd : cs.getD j 0 = x := by
        rw [List.getD_eq_getElem?_getD, List.getElem?_eq_getElem hj]
        simpa using hxj
      have := hbig j hj
      omega
    have hlen := sum_le_length_of_all_le_one cs hall
    have hpos : ∃ x ∈ cs, 0 < x := by
      by_contra hz
      push_neg at hz
      have : cs.sum = 0 := List.sum_eq_zero (fun x hx => by have := hz x hx; omega)
      omega
    obtain ⟨x, hx, hxpos⟩ := hpos
    obtain ⟨j, hj, hxj⟩ := List.mem_iff_getElem.mp hx
    have hd : cs.getD j 0 = x := by
      rw [List.getD_eq_getElem?_getD, List.getElem?_eq_getElem hj]
      simpa using hxj
    have hx1 := hall x hx
    exact ⟨j, hj, Or.inr ⟨by omega, hlen⟩⟩

theorem adjustPass_sum_lt (maxR : Nat) (cs : List Nat) (h : maxR < cs.sum) :
    (adjustPass maxR cs).sum < cs.sum :=
  adjustPassAux_sum_lt maxR cs.length cs h (exists_stepCond maxR cs h)

/-- `while sum(new_counts) > max_records:` — repeat full reverse-order
passes until the shares sum to at most `maxR` (the pass itself stops
exactly at `maxR`, see `adjustLoop_sum_eq`). -/
def adjustLoop (maxR : Nat) (cs : List Nat) : List Nat :=
  if h : maxR < cs.sum then adjustLoop maxR (adjustPass maxR cs) else cs
termination_by cs.sum
decreasing_by exact adjustPass_sum_lt maxR cs h

theorem adjustLoop_sum_aux (maxR : Nat) :
    ∀ n (cs : List Nat), cs.sum ≤ n → maxR ≤ cs.sum → (adjustLoop maxR cs).sum = maxR := by
  intro n
  induction n with
  | zero =>
    intro cs h1 h2
    unfold adjustLoop
    split
    · omega
    · omega
  | succ n ih =>
    intro cs h1 h2
    unfold adjustLoop
    split
    · rename_i hgt
      have hlt := adjustPass_sum_lt maxR cs hgt
      have hge := adjustPassAux_sum_ge maxR cs.length cs hgt
      exact ih (adjustPass maxR cs) (by omega) hge
    · omega

theorem adjustLoop_sum_eq (maxR : Nat) (cs : List Nat) (h : maxR ≤ cs.sum) :
    (adjustLoop maxR cs).sum = maxR :=
  adjustLoop_sum_aux maxR cs.sum cs (Nat.le_refl _) h

theorem adjustLoop_length_aux (maxR : Nat) :
    ∀ n (cs : List Nat), cs.sum ≤ n → (adjustLoop maxR cs).length = cs.length := by
  intro n
  induction n with
  | zero =>
    intro cs h1
    unfold adjustLoop
    split
    · omega
    · rfl
  | succ n ih =>
    intro cs h1
    unfold adjustLoop
    split
    · rename_i hgt
      have hlt := adjustPass_sum_lt maxR cs hgt
      rw [ih (adjustPass maxR cs) (by omega)]
      exact adjustPassAux_length maxR cs.length cs
    · rfl

theorem adjustLoop_length (maxR : Nat) (cs : List Nat) :
    (adjustLoop maxR cs).length = cs.length :=
  adjustLoop_length_aux maxR cs.sum cs (Nat.le_refl _)

/-- Embeds `calculate_group_chunk_sizes`: the per-group distinct-record
counts, sorted by validation_id; if their total exceeds `max_records`,
each group gets the ceiling of its proportional share and the reverse-
order adjustment loop trims the shares. -/
def calculate_group_chunk_sizes (error_counts : List (String × Nat)) (max_records : Nat) :
    List (String × Nat) :=
  let sorted_counts := sortByKey error_counts
  let error_count_list := sorted_counts.map Prod.snd
  let total_error_count := error_count_list.sum
  if max_records < total_error_count then
    let new_counts := error_count_list.map
      (fun c => ceil_div (max_records * c) total_error_count)
    (sorted_counts.map Prod.fst).zip (adjustLoop max_records new_counts)
  else sorted_counts

theorem ceil_div_mul_ge (a b : Nat) (hb : 0 < b) : a ≤ b * ceil_div a b := by
  unfold ceil_div
  have h1 := Nat.div_add_mod (a + b - 1) b
  have h2 := Nat.mod_lt (a + b - 1) hb
  omega

theorem sum_map_ceil_ge (m t : Nat) (ht : 0 < t) (l : List Nat) :
    m * l.sum ≤ t * (l.map (fun c => ceil_div (m * c) t)).sum := by
  induction l with
  | nil => simp
  | cons x xs ih =>
    simp only [List.map_cons, List.sum_cons, Nat.mul_add]
    have := ceil_div_mul_ge (m * x) t ht
    omega

/-! ## Group truncation and CSV export (data_formatters.py) -/

/-- One raw finding row of a validation group's dataframe. -/
structure FindingRecord where
  record_no : Nat
  uid : String
  field_name : String
  field_value : String
deriving DecidableEq

/-- Embeds `truncate_validation_group_records`: `unique()` on the
`record_no` column (modelled in first-occurrence order — the groups the
pipeline passes in are ordered by record number, making this ascending),
the cap comparison, the `[:group_size]` slice, and the `is_in` filter. -/
def truncate_validation_group_records (group : List FindingRecord) (group_size : Nat) :
    List FindingRecord × Bool :=
  let unique_record_nos := uniqueFirst (group.map (fun r => r.record_no))
  let need_to_truncate := decide (group_size < unique_record_nos.length)
  let kept := if need_to_truncate then unique_record_nos.take group_size else unique_record_nos
  (group.filter (fun r => decide (r.record_no ∈ kept)), need_to_truncate)

/-- Embeds the return value of `df_to_download`: on an empty finding
frame it returns the fixed header string; on a non-empty frame it writes
the report to a file via `sink_csv` and returns no value (`None`) — the
file side effect is outside the embedding. -/
def df_to_download (df : List FindingRecord) : Option String :=
  if df.isEmpty then
    some "validation_type,validation_id,validation_name,row,unique_identifier,fig_link,validation_description,"
  else none

/-! ### Properties of first-occurrence deduplication -/

theorem uniqueFirstAux_mem {α : Type} [DecidableEq α] (seen : List α) (l : List α) (a : α) :
    a ∈ uniqueFirstAux seen l ↔ a ∈ l ∧ a ∉ seen := by
  induction l generalizing seen with
  | nil => simp [uniqueFirstAux]
  | cons x xs ih =>
    unfold uniqueFirstAux
    split
    · rename_i hx
      rw [ih]
      constructor
      · rintro ⟨h1, h2⟩
        exact ⟨List.mem_cons_of_mem x h1, h2⟩
      · rintro ⟨h1, h2⟩
        rcases List.mem_cons.mp h1 with rfl | h1
        · exact absurd hx h2
        · exact ⟨h1, h2⟩
    · rename_i hx
      simp only [List.mem_cons, ih]
      constructor
      · rintro (rfl | ⟨h1, h2⟩)
        · exact ⟨Or.inl rfl, hx⟩
        · exact ⟨Or.inr h1, fun hs => h2 (Or.inr hs)⟩
      · rintro ⟨(rfl | h1), h2⟩
        · exact Or.inl rfl
        · by_cases hax : a = x
          · exact Or.inl hax
          · refine Or.inr ⟨h1, fun hs => ?_⟩
            rcases hs with h | h
            · exact hax h
            · exact h2 h

theorem uniqueFirst_mem {α : Type} [DecidableEq α] (l : List α) (a : α) :
    a ∈ uniqueFirst l ↔ a ∈ l := by
  unfold uniqueFirst
  rw [uniqueFirstAux_mem]
  simp

theorem uniqueFirstAux_sublist {α : Type} [DecidableEq α] (seen : List α) (l : List α) :
    (uniqueFirstAux seen l).Sublist l := by
  induction l generalizing seen with
  | nil => simp [uniqueFirstAux]
  | cons x xs ih =>
    unfold uniqueFirstAux
    split
    · exact (ih seen).cons x
    · exact (ih (x :: seen)).cons₂ x

theorem uniqueFirstAux_nodup {α : Type} [DecidableEq α] (seen : List α) (l : List α) :
    (uniqueFirstAux seen l).Nodup := by
  induction l generalizing seen with
  | nil => simp [uniqueFirstAux]
  | cons x xs ih =>
    unfold uniqueFirstAux
    split
    · exact ih seen
    · refine List.Nodup.cons ?_ (ih (x :: seen))
      intro hx
      have := (uniqueFirstAux_mem (x :: seen) xs x).mp hx
      exact this.2 (List.mem_cons_self x seen)

theorem uniqueFirst_nodup {α : Type} [DecidableEq α] (l : List α) :
    (uniqueFirst l).Nodup :=
  uniqueFirstAux_nodup [] l

theorem uniqueFirst_sublist {α : Type} [DecidableEq α] (l : List α) :
    (uniqueFirst l).Sublist l :=
  uniqueFirstAux_sublist [] l

theorem uniqueFirst_sorted_lt (l : List Nat) (h : l.Pairwise (· ≤ ·)) :
    (uniqueFirst l).Pairwise (· < ·) := by
  have hle : (uniqueFirst l).Pairwise (· ≤ ·) := h.sublist (uniqueFirst_sublist l)
  have hne : (uniqueFirst l).Pairwise (· ≠ ·) := uniqueFirst_nodup l
  have := hle.and hne
  exact this.imp (fun h => Nat.lt_of_le_of_ne h.1 h.2)

/-! ## Helper lemmas for the claims -/

theorem foldl_and_eq {α : Type} (f : α → Bool) (l : List α) (b : Bool) :
    l.foldl (fun acc c => acc && f c) b = (b && l.all f) := by
  induction l generalizing b with
  | nil => simp
  | cons x xs ih => simp [ih, Bool.and_assoc]

theorem check_condition_eq_true_iff (c : EnumPairCondition) (cv : List String) (t : String) :
    check_condition c cv t = true ↔
      (condition_matches c cv = true → target_relation_holds c t = true) := by
  unfold check_condition
  by_cases hm : condition_matches c cv = true
  · rw [if_pos hm]
    simp [hm]
  · rw [if_neg hm]
    simp [hm]

/-! ## Claims -/

/-- Claim C1 (counterexample): with two conditions that both match the
related value `"1"` — the first requiring the target to equal `"999"`,
the second requiring it not to — the implementation fails the row
(`"999"` satisfies the first but violates the second, and the fold takes
the conjunction), while the claimed first-match-wins reading passes it. -/
theorem claim_C1_counterexample :
    has_valid_enum_pair
      [{ condition_values := ["1"], is_equal_condition := true,
         target_value := "999", should_equal_target := true },
       { condition_values := ["1"], is_equal_condition := true,
         target_value := "999", should_equal_target := false }]
      "1" "999" ';' = false ∧
    has_valid_enum_pair_first_match
      [{ condition_values := ["1"], is_equal_condition := true,
         target_value := "999", should_equal_target := true },
       { condition_values := ["1"], is_equal_condition := true,
         target_value := "999", should_equal_target := false }]
      "1" "999" ';' = true := by
  decide

/-- Claim C1 (amended): each condition whose membership test matches the
related column's split value-set imposes its target relation, and the
row passes exactly when every matching condition's relation holds — a
conjunction over matching conditions, not first-match-wins; in
particular a row with no matching condition passes unconditionally. -/
theorem claim_C1_enum_pair_conjunction (conditions : List EnumPairCondition)
    (related target : String) (separator : Char) :
    has_valid_enum_pair conditions related target separator = true ↔
      ∀ c ∈ conditions, condition_matches c (pySplit related separator) = true →
        target_relation_holds c (pyStrip target) = true := by
  unfold has_valid_enum_pair
  rw [foldl_and_eq]
  simp only [Bool.true_and, List.all_eq_true]
  constructor
  · intro h c hc hm
    exact (check_condition_eq_true_iff c _ _).mp (h c hc) hm
  · intro h c hc
    exact (check_condition_eq_true_iff c _ _).mpr (h c hc)

/-- Claim C3: the numeric-comparison evaluators apply Python `float`
with no exception handler, and the polars date evaluators use strict
`str.strptime`, so a malformed non-blank cell raises (modelled `none`)
instead of producing a failing boolean; only `is_date_in_range` (whose
`strptime` calls sit inside `try/except ValueError`) resolves the
malformed value to `False` as the claim demands of all of them. -/
theorem claim_C3_malformed_values :
    is_greater_than "abc" "5" false = none ∧
    is_greater_than_or_equal_to "abc" "5" false = none ∧
    is_less_than "abc" "5" false = none ∧
    is_date_after ["20231001"] ["abc"] = none ∧
    is_date_before_in_days ["abc"] ["20230101"] 730 = none ∧
    is_date_in_range "abc" "20230101" "20231231" = false := by
  decide

/-- Claim C5 (counterexample): on the column `["x", "x"]` with
`count_limit = 1` the distinct-value count is 1 ≤ 1, so the claim
predicts a pass verdict for every row, but the implementation (polars
`is_unique`) reports `[false, false]`. -/
theorem claim_C5_counterexample :
    distinct_count ["x", "x"] ≤ 1 ∧ is_unique_column ["x", "x"] 1 ≠ [true, true] := by
  decide

/-- Claim C5 (amended): `is_unique_column` marks each row with whether
that row's value occurs exactly once in the column, ignoring
`count_limit`; consequently every row passes exactly when the column has
no duplicate values at all. -/
theorem claim_C5_per_row_uniqueness (col : List String) (count_limit : Nat) :
    ((is_unique_column col count_limit).all id = true ↔ col.Nodup) ∧
    (∀ other_limit : Nat, is_unique_column col count_limit = is_unique_column col other_limit) := by
  refine ⟨?_, fun _ => rfl⟩
  unfold is_unique_column
  rw [List.nodup_iff_count_eq_one]
  simp [List.all_eq_true]

/-- Claim C6: a row passes the conditional-field-conflict evaluator
exactly when the XOR of "the related column's split value-set does not
intersect the trigger set" and "the target is blank after stripping" is
false — equivalently, trigger absent with blank target, or trigger
present with non-blank target; with trigger `{"977"}`, related `"1;977"`
and blank target fails while related `"1;2"` and blank target passes. -/
theorem claim_C6_conditional_field_conflict (target related : String)
    (condition_values : List String) (separator : Char) :
    (has_no_conditional_field_conflict target related condition_values separator = true ↔
      ((((pySplit related separator).inter condition_values).length = 0 ∧ pyStrip target = "") ∨
       (((pySplit related separator).inter condition_values).length ≠ 0 ∧ pyStrip target ≠ ""))) ∧
    has_no_conditional_field_conflict "" "1;977" ["977"] ';' = false ∧
    has_no_conditional_field_conflict "" "1;2" ["977"] ';' = true := by
  refine ⟨?_, by decide, by decide⟩
  unfold has_no_conditional_field_conflict
  by_cases h1 : ((pySplit related separator).inter condition_values).length = 0 <;>
    by_cases h2 : pyStrip target = "" <;>
    simp [h1, h2]

/-- Claim C7: for every evaluator taking `accept_blank`, a blank
(empty or whitespace-only) input passes when `accept_blank` is true,
whatever the underlying predicate and its parameters. -/
theorem claim_C7_accept_blank (value : String) (h : pyStrip value = "")
    (is_whole : Bool) (accepted_length : Nat) (codes : List String) (limit : String)
    (accepted_values : List String) (separator : Char)
    (regexMatch : String → String → Bool) (regex : String) :
    is_number value true is_whole = true ∧
    has_correct_length value accepted_length true = true ∧
    is_valid_code value true codes = true ∧
    is_greater_than value limit true = some true ∧
    is_greater_than_or_equal_to value limit true = some true ∧
    is_less_than value limit true = some true ∧
    is_valid_enum value accepted_values true separator = true ∧
    has_valid_format regexMatch value regex true = true := by
  unfold is_number has_correct_length is_valid_code is_greater_than
    is_greater_than_or_equal_to is_less_than is_valid_enum has_valid_format
    comparison_helper _check_blank_
  simp [h]

/-- Claim C7 (witness): the whitespace-only cell `" "` passes all the
`accept_blank` evaluators at concrete parameters. -/
theorem claim_C7_accept_blank_witness :
    pyStrip " " = "" ∧
    (is_number " " true false = true ∧
     has_correct_length " " 5 true = true ∧
     is_valid_code " " true ["a"] = true ∧
     is_greater_than " " "0" true = some true ∧
     is_greater_than_or_equal_to " " "0" true = some true ∧
     is_less_than " " "0" true = some true ∧
     is_valid_enum " " ["1"] true ';' = true ∧
     has_valid_format (fun _ _ => false) " " "x" true = true) :=
  ⟨by decide,
   claim_C7_accept_blank " " (by decide) false 5 ["a"] "0" ["1"] ';' (fun _ _ => false) "x"⟩

/-- Claim C8 (counterexample): the header emitted for an empty finding
set has no `field_1`/`value_1` columns, contrary to the claimed header
line. -/
theorem claim_C8_counterexample :
    df_to_download [] =
      some "validation_type,validation_id,validation_name,row,unique_identifier,fig_link,validation_description," ∧
    "field_1" ∉
      pySplit "validation_type,validation_id,validation_name,row,unique_identifier,fig_link,validation_description," ',' :=
  ⟨rfl, by decide⟩

/-- Claim C8 (amended): for an empty finding set `df_to_download`
returns exactly the fixed seven column names followed by a trailing
comma — no `field_k`/`value_k` columns — and nothing else. -/
theorem claim_C8_empty_download_header :
    df_to_download [] =
      some "validation_type,validation_id,validation_name,row,unique_identifier,fig_link,validation_description," ∧
    pySplit "validation_type,validation_id,validation_name,row,unique_identifier,fig_link,validation_description," ','
      = ["validation_type", "validation_id", "validation_name", "row",
         "unique_identifier", "fig_link", "validation_description", ""] :=
  ⟨rfl, by decide⟩

/-- Claim C9: `string_contains` is true for every value and any slice
indices when no containing value is provided; when one is provided the
(possibly sliced) value is compared against it. -/
theorem claim_C9_string_contains (value : String) (start_idx end_idx : Option Int) :
    string_contains value none start_idx end_idx = true ∧
    (∀ cv : String, string_contains value (some cv) none none = (value == cv)) ∧
    (∀ cv : String, ∀ a b : Int,
      string_contains value (some cv) (some a) (some b) = (pySlice value a b == cv)) :=
  ⟨rfl, fun _ => rfl, fun _ _ _ => rfl⟩

/-- Claim C10: splitting the blank string yields exactly one (empty)
sub-value, so a blank cell passes `has_valid_value_count` exactly when
`min_length ≤ 1` and the max bound, when present, admits 1. -/
theorem claim_C10_blank_value_count (separator : Char) (min_length : Int)
    (max_length : Option Int) :
    (pySplit "" separator).length = 1 ∧
    (has_valid_value_count "" min_length max_length separator = true ↔
      (min_length ≤ 1 ∧ (max_length = none ∨ ∃ m, max_length = some m ∧ 1 ≤ m))) := by
  refine ⟨rfl, ?_⟩
  unfold has_valid_value_count
  cases max_length with
  | none => simp [pySplit]
  | some m => simp [pySplit]

/-- Claim C4: for a finding group ordered by record number, truncation
keeps exactly the rows whose record number is among the first `N`
distinct record numbers in ascending order, never splits one record's
rows across the cut, flags the group truncated exactly when some record
was dropped, and every dropped row's record number exceeds every kept
row's. -/
theorem claim_C4_truncate_group (group : List FindingRecord) (N : Nat)
    (hsort : (group.map (fun r => r.record_no)).Pairwise (· ≤ ·)) :
    truncate_validation_group_records group N =
      (group.filter (fun r =>
        decide (r.record_no ∈ (uniqueFirst (group.map (fun r => r.record_no))).take N)),
       decide (N < (uniqueFirst (group.map (fun r => r.record_no))).length)) ∧
    ((truncate_validation_group_records group N).2 = true ↔
      (truncate_validation_group_records group N).1 ≠ group) ∧
    (∀ r ∈ group, r ∉ (truncate_validation_group_records group N).1 →
      ∀ s ∈ (truncate_validation_group_records group N).1, s.record_no < r.record_no) := by
  classical
  set D := uniqueFirst (group.map (fun r => r.record_no)) with hD
  have hDmem : ∀ r ∈ group, r.record_no ∈ D := by
    intro r hr
    rw [hD, uniqueFirst_mem]
    exact List.mem_map_of_mem _ hr
  have hlt : D.Pairwise (· < ·) := uniqueFirst_sorted_lt _ hsort
  have hsplit : D.take N ++ D.drop N = D := List.take_append_drop N D
  have hpw : ∀ a ∈ D.take N, ∀ b ∈ D.drop N, a < b := by
    have := hsplit ▸ hlt
    exact (List.pairwise_append.mp this).2.2
  have hmain : truncate_validation_group_records group N =
      (group.filter (fun r => decide (r.record_no ∈ D.take N)), decide (N < D.length)) := by
    unfold truncate_validation_group_records
    rw [← hD]
    by_cases hneed : N < D.length
    · simp [hneed]
    · simp [hneed, List.take_of_length_le (Nat.le_of_not_lt hneed)]
  refine ⟨hmain, ?_, ?_⟩
  · rw [hmain]
    simp only [decide_eq_true_eq]
    constructor
    · intro hneed heq
      have hdropne : D.drop N ≠ [] := by
        intro hnil
        have := congrArg List.length hnil
        simp at this
        omega
      obtain ⟨v, hv⟩ := List.exists_mem_of_ne_nil _ hdropne
      have hvD : v ∈ D := by
        rw [← hsplit]
        exact List.mem_append_right _ hv
      have hvnot : v ∉ D.take N := fun hvt => lt_irrefl v (hpw v hvt v hv)
      have hvmap : v ∈ group.map (fun r => r.record_no) := by
        rw [hD] at hvD
        exact (uniqueFirst_mem _ v).mp hvD
      obtain ⟨r, hr, hrv⟩ := List.mem_map.mp hvmap
      have hrmem : r ∈ group := hr
      have : r ∈ group.filter (fun r => decide (r.record_no ∈ D.take N)) := by
        rw [heq]
        exact hrmem
      have := (List.mem_filter.mp this).2
      rw [hrv] at this
      exact absurd (of_decide_eq_true this) hvnot
    · intro hne
      by_contra hnotneed
      push_neg at hnotneed
      apply hne
      rw [List.take_of_length_le hnotneed]
      rw [List.filter_eq_self]
      intro r hr
      exact decide_eq_true (hDmem r hr)
  · rw [hmain]
    intro r hr hrnot s hs
    have hsmem := List.mem_filter.mp hs
    have hstake : s.record_no ∈ D.take N := of_decide_eq_true hsmem.2
    have hrnottake : r.record_no ∉ D.take N := by
      intro htake
      exact hrnot (List.mem_filter.mpr ⟨hr, decide_eq_true htake⟩)
    have hrD := hDmem r hr
    have hrdrop : r.record_no ∈ D.drop N := by
      rw [← hsplit] at hrD
      rcases List.mem_append.mp hrD with h | h
      · exact absurd h hrnottake
      · exact h
    exact hpw _ hstake _ hrdrop

/-- Claim C4 (witness): a three-record sorted group capped at two
records keeps records 1 and 2, drops record 3 and is flagged
truncated. -/
theorem claim_C4_truncate_group_witness :
    (([⟨1, "a", "f1", "v1"⟩, ⟨2, "b", "f2", "v2"⟩, ⟨2, "b", "f3", "v3"⟩,
       ⟨3, "c", "f4", "v4"⟩] : List FindingRecord).map
        (fun r => r.record_no)).Pairwise (· ≤ ·) ∧
    (truncate_validation_group_records
        [⟨1, "a", "f1", "v1"⟩, ⟨2, "b", "f2", "v2"⟩, ⟨2, "b", "f3", "v3"⟩,
         ⟨3, "c", "f4", "v4"⟩] 2 =
      ([⟨1, "a", "f1", "v1"⟩, ⟨2, "b", "f2", "v2"⟩, ⟨2, "b", "f3", "v3"⟩,
        ⟨3, "c", "f4", "v4"⟩].filter (fun r =>
        decide (r.record_no ∈ (uniqueFirst (([⟨1, "a", "f1", "v1"⟩, ⟨2, "b", "f2", "v2"⟩,
          ⟨2, "b", "f3", "v3"⟩, ⟨3, "c", "f4", "v4"⟩] : List FindingRecord).map
            (fun r => r.record_no))).take 2)),
       decide (2 < (uniqueFirst (([⟨1, "a", "f1", "v1"⟩, ⟨2, "b", "f2", "v2"⟩,
         ⟨2, "b", "f3", "v3"⟩, ⟨3, "c", "f4", "v4"⟩] : List FindingRecord).map
           (fun r => r.record_no))).length))) :=
  ⟨by decide,
   (claim_C4_truncate_group
     [⟨1, "a", "f1", "v1"⟩, ⟨2, "b", "f2", "v2"⟩, ⟨2, "b", "f3", "v3"⟩,
      ⟨3, "c", "f4", "v4"⟩] 2 (by decide)).1⟩

/-- Claim C2: if the groups' distinct-record counts sum to at most
`max_records`, every count is returned unchanged; otherwise the shares
start at `ceil(max_records * count / total)` and the reverse-order
adjustment loop terminates with the shares summing to exactly
`max_records`; for counts `{A:70, B:20, C:10}` and max 50 the result is
`{A:35, B:10, C:5}` with no adjustment. -/
theorem claim_C2_group_chunk_sizes (error_counts : List (String × Nat)) (max_records : Nat) :
    (((sortByKey error_counts).map Prod.snd).sum ≤ max_records →
      calculate_group_chunk_sizes error_counts max_records = sortByKey error_counts) ∧
    (max_records < ((sortByKey error_counts).map Prod.snd).sum →
      ((calculate_group_chunk_sizes error_counts max_records).map Prod.snd).sum = max_records) ∧
    calculate_group_chunk_sizes [("A", 70), ("B", 20), ("C", 10)] 50
      = [("A", 35), ("B", 10), ("C", 5)] := by
  refine ⟨?_, ?_, ?_⟩
  · intro hle
    simp only [calculate_group_chunk_sizes]
    rw [if_neg (by omega)]
  · intro hgt
    simp only [calculate_group_chunk_sizes]
    rw [if_pos hgt]
    have hlenD : (adjustLoop max_records
        (((sortByKey error_counts).map Prod.snd).map
          (fun c => ceil_div (max_records * c) ((sortByKey error_counts).map Prod.snd).sum))).length
        = ((sortByKey error_counts).map Prod.fst).length := by
      rw [adjustLoop_length]
      simp
    rw [List.map_snd_zip _ _ (Nat.le_of_eq hlenD)]
    apply adjustLoop_sum_eq
    have ht : 0 < ((sortByKey error_counts).map Prod.snd).sum := by omega
    have hmul := sum_map_ceil_ge max_records ((sortByKey error_counts).map Prod.snd).sum ht
      ((sortByKey error_counts).map Prod.snd)
    rw [Nat.mul_comm] at hmul
    exact Nat.le_of_mul_le_mul_left hmul ht
  · have hsort : sortByKey [("A", 70), ("B", 20), ("C", 10)]
        = [("A", 70), ("B", 20), ("C", 10)] := by decide
    have hloop : adjustLoop 50 [35, 10, 5] = [35, 10, 5] := by
      unfold adjustLoop
      norm_num
    simp only [calculate_group_chunk_sizes, hsort]
    norm_num [ceil_div]
    rw [hloop]
    rfl

/-- Claim C2 (witness): at counts `{A:2}` with max 5 (no truncation) the
counts are unchanged, and at counts `{A:70, B:20, C:10}` with max 50 the
truncated shares sum to exactly 50. -/
theorem claim_C2_group_chunk_sizes_witness :
    (((sortByKey [("A", 2)]).map Prod.snd).sum ≤ 5 ∧
      calculate_group_chunk_sizes [("A", 2)] 5 = sortByKey [("A", 2)]) ∧
    (50 < ((sortByKey [("A", 70), ("B", 20), ("C", 10)]).map Prod.snd).sum ∧
      ((calculate_group_chunk_sizes [("A", 70), ("B", 20), ("C", 10)] 50).map Prod.snd).sum = 50) :=
  ⟨⟨by decide, (claim_C2_group_chunk_sizes [("A", 2)] 5).1 (by decide)⟩,
   ⟨by decide, (claim_C2_group_chunk_sizes [("A", 70), ("B", 20), ("C", 10)] 50).2.1 (by decide)⟩⟩

end RegtechValidator
